import Mathlib

/-!
Verification of the Repeaty core (`src/launcher/src/main_launcher.rs`):
the tiled pixel compositor, the PNG ancillary-chunk scanner, the pHYs
resolution policy, the repeat/dimension model of the GUI state, and the
output-filename formatter.

Modelling conventions:
* Rust `u8`/`u32`/`usize` values are embedded as `Nat` (all arithmetic in
  the modelled code paths stays nonnegative and far from overflow).
* `f64` arithmetic is embedded as exact `ℚ` arithmetic; rounding of `f64`
  operations is not modelled (the verified properties are about the exact
  field laws the code relies on).
* Rust panics (`assert!`, `expect`) on malformed PNG data are embedded as
  `Except.error` results, following the spec's error taxonomy.
* The pixel type `PixelRGBA` is abstracted to `Nat` (one opaque packed
  colour value per pixel); nothing in the verified code inspects channels.
-/

namespace Repeaty

/-! ## Raster images and the tiled compositor -/

/-- A raster image: width, height and a row-major pixel buffer
(`PixelRGBA` abstracted to `Nat`). -/
structure Bitmap where
  width : Nat
  height : Nat
  data : List Nat
deriving DecidableEq

/-- Modelled from the spec: `ct_lib::bitmap::Bitmap::get` is not part of this
repository's sources; spec section 3 fixes the raster layout as row-major with
origin top-left, so pixel `(x, y)` lives at linear index `y * width + x`. -/
def Bitmap.get (bitmap : Bitmap) (x y : Nat) : Nat :=
  bitmap.data.getD (y * bitmap.width + x) 0

/-- Embedding of `copy_pixels`: fills a buffer of `output_buffer_len` pixels,
whose slot `index` corresponds to absolute linear position
`index + start_index` of the output image; the output coordinate is recovered
by division/modulo with the output width and wrapped into the source image by
modulo on each axis. -/
def copy_pixels (input_image : Bitmap) (output_image_width : Nat)
    (output_buffer_len start_index : Nat) : List Nat :=
  (List.range output_buffer_len).map fun index =>
    let output_x := (index + start_index) % output_image_width
    let output_y := (index + start_index) / output_image_width
    let input_x := output_x % input_image.width
    let input_y := output_y % input_image.height
    input_image.get input_x input_y

/-- Number of chunks rayon's `par_chunks_mut` produces for a buffer of
`total` elements: `⌈total / chunk_size⌉`. -/
def chunkCount (total chunk_size : Nat) : Nat := (total + chunk_size - 1) / chunk_size

/-- Embedding of the parallel compositing loop of `create_pattern_png`:
the output buffer is partitioned into contiguous chunks of `chunk_size`
pixels (the last one possibly shorter) and chunk `chunk_index` is filled by
`copy_pixels` with absolute start offset `chunk_index * chunk_size`.
Rayon's workers write disjoint ranges, so the final buffer is the
concatenation of the chunk contents in index order. -/
def composite_chunks (input_image : Bitmap) (output_image_width total chunk_size : Nat) :
    List Nat :=
  (List.range (chunkCount total chunk_size)).flatMap fun chunk_index =>
    copy_pixels input_image output_image_width
      (min chunk_size (total - chunk_index * chunk_size)) (chunk_index * chunk_size)

/-- The chunk size hard-coded in `create_pattern_png`. -/
def CHUNK_SIZE : Nat := 4 * 1024 * 1024

/-- Embedding of the compositing phase of `create_pattern_png`: a fresh
`result_pixel_width × result_pixel_height` image whose buffer is filled by the
chunked parallel loop. (Writing the PNG file afterwards is I/O and outside
this model.) -/
def create_pattern_png (image : Bitmap) (result_pixel_width result_pixel_height : Nat) :
    Bitmap :=
  { width := result_pixel_width
    height := result_pixel_height
    data := composite_chunks image result_pixel_width
      (result_pixel_width * result_pixel_height) CHUNK_SIZE }

/-! ## PNG byte-stream chunk scanner -/

/-- Error taxonomy of the decode path (spec section 7); the source signals
these conditions through `assert!`/`expect` panics, which the embedding turns
into error results. -/
inductive DecodeError
  | BadSignature
  | Truncated
  | BadChunkType
deriving DecidableEq

/-- The fixed 8-byte PNG signature checked by `png_extract_chunks_to_copy`. -/
def PNG_HEADER : List Nat := [0x89, 0x50, 0x4E, 0x47, 0x0D, 0x0A, 0x1A, 0x0A]

/-- bincode big-endian `u32` read at byte offset `pos`; `none` when fewer than
four bytes remain (bincode's deserialization error). -/
def readBE32 (bytes : List Nat) (pos : Nat) : Option Nat :=
  match bytes.drop pos with
  | b0 :: b1 :: b2 :: b3 :: _ => some (((b0 * 256 + b1) * 256 + b2) * 256 + b3)
  | _ => none

/-- Is `b` a UTF-8 continuation byte (`0x80..0xBF`)? -/
def utf8Cont (b : Nat) : Bool := 0x80 ≤ b && b ≤ 0xBF

/-- UTF-8 validity of a byte sequence, as checked by Rust's
`std::str::from_utf8` (RFC 3629: no overlong forms, no surrogates, nothing
above U+10FFFF). -/
def utf8Valid : List Nat → Bool
  | [] => true
  | b :: rest =>
    if b ≤ 0x7F then utf8Valid rest
    else if 0xC2 ≤ b && b ≤ 0xDF then
      match rest with
      | c :: rest2 => utf8Cont c && utf8Valid rest2
      | [] => false
    else if b == 0xE0 then
      match rest with
      | c :: d :: rest2 => (0xA0 ≤ c && c ≤ 0xBF) && utf8Cont d && utf8Valid rest2
      | _ => false
    else if (0xE1 ≤ b && b ≤ 0xEC) || b == 0xEE || b == 0xEF then
      match rest with
      | c :: d :: rest2 => utf8Cont c && utf8Cont d && utf8Valid rest2
      | _ => false
    else if b == 0xED then
      match rest with
      | c :: d :: rest2 => (0x80 ≤ c && c ≤ 0x9F) && utf8Cont d && utf8Valid rest2
      | _ => false
    else if b == 0xF0 then
      match rest with
      | c :: d :: e :: rest2 =>
          (0x90 ≤ c && c ≤ 0xBF) && utf8Cont d && utf8Cont e && utf8Valid rest2
      | _ => false
    else if 0xF1 ≤ b && b ≤ 0xF3 then
      match rest with
      | c :: d :: e :: rest2 => utf8Cont c && utf8Cont d && utf8Cont e && utf8Valid rest2
      | _ => false
    else if b == 0xF4 then
      match rest with
      | c :: d :: e :: rest2 =>
          (0x80 ≤ c && c ≤ 0x8F) && utf8Cont d && utf8Cont e && utf8Valid rest2
      | _ => false
    else false

/-- UTF-8 bytes of the chunk-type string `"cHRM"`. -/
def typecHRM : List Nat := [0x63, 0x48, 0x52, 0x4D]

/-- UTF-8 bytes of the chunk-type string `"gAMA"`. -/
def typegAMA : List Nat := [0x67, 0x41, 0x4D, 0x41]

/-- UTF-8 bytes of the chunk-type string `"iCCP"`. -/
def typeiCCP : List Nat := [0x69, 0x43, 0x43, 0x50]

/-- UTF-8 bytes of the chunk-type string `"pHYs"`. -/
def typepHYs : List Nat := [0x70, 0x48, 0x59, 0x73]

/-- UTF-8 bytes of the chunk-type string `"sRGB"`. -/
def typesRGB : List Nat := [0x73, 0x52, 0x47, 0x42]

/-- The keep allow-list match of `png_extract_chunks_to_copy` (chunk types
written as the UTF-8 bytes of the matched string literals). -/
def keepType (t : List Nat) : Bool :=
  t == typecHRM || t == typegAMA || t == typeiCCP || t == typepHYs || t == typesRGB

/-- The extracted-chunk map, modelling the Rust `HashMap<String, Vec<u8>>` by
its lookup function; keys are the UTF-8 bytes of the type string (UTF-8
decoding is injective, so byte-list keys and string keys coincide). -/
def ChunkMap := List Nat → Option (List Nat)

/-- The empty map `HashMap::new()`. -/
def emptyChunkMap : ChunkMap := fun _ => none

/-- Model of `HashMap::insert`: the new binding shadows any previous one. -/
def insertChunk (m : ChunkMap) (k v : List Nat) : ChunkMap :=
  fun t => if t = k then some v else m t

/-- One loop iteration's accumulator update: keep the chunk iff its type is on
the allow-list. -/
def stepAcc (acc : ChunkMap) (chunk_type chunk_data : List Nat) : ChunkMap :=
  if keepType chunk_type then insertChunk acc chunk_type chunk_data else acc

/-- Embedding of the chunk-walking `while` loop of
`png_extract_chunks_to_copy`: read the 4-byte big-endian data length, check
that the complete chunk (`4 + 4 + length + 4` bytes) fits in the remaining
file, decode the type as UTF-8, keep allow-listed chunks, and advance past the
complete chunk. The `expect`/`assert!` panics of the source are error
results here. -/
def scanChunks (bytes : List Nat) (pos : Nat) (acc : ChunkMap) :
    Except DecodeError ChunkMap :=
  if h : pos < bytes.length then
    match readBE32 bytes pos with
    | none => .error DecodeError.Truncated
    | some chunk_data_length =>
      if 4 + 4 + chunk_data_length + 4 ≤ bytes.length - pos then
        if utf8Valid ((bytes.drop (pos + 4)).take 4) then
          scanChunks bytes (pos + (4 + 4 + chunk_data_length + 4))
            (stepAcc acc ((bytes.drop (pos + 4)).take 4)
              ((bytes.drop (pos + 4 + 4)).take chunk_data_length))
        else .error DecodeError.BadChunkType
      else .error DecodeError.Truncated
  else .ok acc
termination_by bytes.length - pos
decreasing_by omega

/-- Embedding of `png_extract_chunks_to_copy` on raw file bytes: check that
the file is longer than the 8-byte signature, check the signature, then walk
the chunks from offset 8. -/
def png_extract_chunks_to_copy (file_bytes : List Nat) : Except DecodeError ChunkMap :=
  if PNG_HEADER.length < file_bytes.length then
    if file_bytes.take 8 = PNG_HEADER then scanChunks file_bytes 8 emptyChunkMap
    else .error DecodeError.BadSignature
  else .error DecodeError.BadSignature

/-- Fuelled variant of the same loop, modelling it operationally: each
constructor application is one loop iteration, and `none` means the iteration
budget ran out before the loop exited. -/
def scanChunksFuel : Nat → List Nat → Nat → ChunkMap → Option (Except DecodeError ChunkMap)
  | 0, _, _, _ => none
  | fuel + 1, bytes, pos, acc =>
    if pos < bytes.length then
      match readBE32 bytes pos with
      | none => some (.error DecodeError.Truncated)
      | some chunk_data_length =>
        if 4 + 4 + chunk_data_length + 4 ≤ bytes.length - pos then
          if utf8Valid ((bytes.drop (pos + 4)).take 4) then
            scanChunksFuel fuel bytes (pos + (4 + 4 + chunk_data_length + 4))
              (stepAcc acc ((bytes.drop (pos + 4)).take 4)
                ((bytes.drop (pos + 4 + 4)).take chunk_data_length))
          else some (.error DecodeError.BadChunkType)
        else some (.error DecodeError.Truncated)
    else some (.ok acc)

/-- Big-endian 4-byte encoding of a chunk data length. -/
def be32 (n : Nat) : List Nat :=
  [n / 2 ^ 24 % 256, n / 2 ^ 16 % 256, n / 2 ^ 8 % 256, n % 256]

/-- A PNG chunk as laid out in the file: type, data and CRC, serialized with a
4-byte big-endian length prefix. -/
structure RawChunk where
  ctype : List Nat
  cdata : List Nat
  crc : List Nat
deriving DecidableEq

/-- File-level serialization of one chunk. -/
def encodeChunk (c : RawChunk) : List Nat :=
  be32 c.cdata.length ++ c.ctype ++ c.cdata ++ c.crc

/-- File-level serialization of a chunk sequence. -/
def encodeChunks (cs : List RawChunk) : List Nat := cs.flatMap encodeChunk

/-- Structural well-formedness of one chunk: 4-byte type and CRC fields, a
data length that fits the 4-byte big-endian prefix, and a type that is valid
UTF-8 (every real PNG chunk type is four ASCII letters). -/
def WfChunk (c : RawChunk) : Prop :=
  c.ctype.length = 4 ∧ c.crc.length = 4 ∧ c.cdata.length < 2 ^ 32 ∧ utf8Valid c.ctype

instance : DecidablePred WfChunk := fun c => by unfold WfChunk; infer_instance

/-- Folding a chunk sequence into the map, as the scanner's loop does. -/
def insertAll (acc : ChunkMap) (cs : List RawChunk) : ChunkMap :=
  cs.foldl (fun m c => stepAcc m c.ctype c.cdata) acc

/-! ## pHYs metadata and unit conversion -/

/-- The `pHYs` payload structure: horizontal and vertical pixels per unit and
the unit flag (`1` means meter). -/
structure PngPhys where
  pixel_per_unit_x : Nat
  pixel_per_unit_y : Nat
  unit_is_meter : Nat
deriving DecidableEq

/-- bincode big-endian deserialization of `PngPhys` from a chunk payload: two
big-endian `u32` fields and one `u8`, read from the front (bincode tolerates
trailing bytes); fewer than nine bytes is a deserialization error. -/
def parsePngPhys (bytes : List Nat) : Option PngPhys :=
  match bytes with
  | x0 :: x1 :: x2 :: x3 :: y0 :: y1 :: y2 :: y3 :: u :: _ =>
    some { pixel_per_unit_x := ((x0 * 256 + x1) * 256 + x2) * 256 + x3
           pixel_per_unit_y := ((y0 * 256 + y1) * 256 + y2) * 256 + y3
           unit_is_meter := u }
  | _ => none

/-- Unit conversion (`f64` modelled as exact `ℚ`). -/
def millimeter_in_meter (millimeter : ℚ) : ℚ := millimeter * (1 / 1000)

/-- Unit conversion. -/
def meter_in_millimeter (meter : ℚ) : ℚ := meter * 1000

/-- Unit conversion; the source constant is `25.4` mm per inch. -/
def millimeter_in_inch (millimeter : ℚ) : ℚ := millimeter * (1 / 25.4)

/-- Unit conversion. -/
def inch_in_millimeter (inch : ℚ) : ℚ := inch * 25.4

/-- Unit conversion, composed as in the source. -/
def meter_in_inch (meter : ℚ) : ℚ := millimeter_in_inch (meter_in_millimeter meter)

/-- Pixel-density conversion. -/
def pixel_per_meter_in_pixel_per_inch (pixels_per_meter : ℚ) : ℚ :=
  pixels_per_meter / meter_in_inch 1

/-- Pixel-density conversion. -/
def pixel_per_inch_in_pixel_per_millimeter (pixels_per_inch : ℚ) : ℚ :=
  pixels_per_inch / inch_in_millimeter 1

/-- Pixel-density conversion. -/
def pixel_per_millimeter_in_pixel_per_inch (pixels_per_millimeter : ℚ) : ℚ :=
  pixels_per_millimeter / millimeter_in_inch 1

/-- Embedding of `get_ppi_from_png_metadata`: reads the `pHYs` entry of the
extracted chunk map. An absent chunk, a non-meter unit flag or mismatched
horizontal/vertical densities give `none` (unknown resolution) without
failing the load; a payload bincode cannot deserialize is a decode error (an
`expect` panic in the source). -/
def get_ppi_from_png_metadata (png_metadata : ChunkMap) : Except DecodeError (Option ℚ) :=
  match png_metadata typepHYs with
  | some metadata =>
    match parsePngPhys metadata with
    | none => .error DecodeError.Truncated
    | some info =>
      if info.unit_is_meter ≠ 1 then .ok none
      else if info.pixel_per_unit_x ≠ info.pixel_per_unit_y then .ok none
      else .ok (some (pixel_per_meter_in_pixel_per_inch (info.pixel_per_unit_x : ℚ)))
  | none => .ok none

/-! ## GUI dimension model, number formatter and output path -/

/-- Model of `f64::round`: round half away from zero, on `ℚ`. -/
def roundQ (value : ℚ) : ℤ := if 0 ≤ value then ⌊value + 1 / 2⌋ else ⌈value - 1 / 2⌉

/-- The decimal digit character for `d < 10`. -/
def digitChar (d : Nat) : Char := Char.ofNat (48 + d)

/-- Decimal rendering of a natural number, most significant digit first. -/
def renderNat (n : Nat) : String :=
  if n = 0 then "0" else String.mk (((Nat.digits 10 n).reverse).map digitChar)

/-- Decimal rendering of an integer, as Rust's `format!("{:.0}", v)` renders
an integral `f64` (the sign of a negative zero is not modelled). -/
def renderInt (i : ℤ) : String :=
  if i < 0 then "-" ++ renderNat i.natAbs else renderNat i.natAbs

/-- Exactly-two-digit decimal rendering of `k < 100`. -/
def render2 (k : Nat) : String := String.mk [digitChar (k / 10 % 10), digitChar (k % 10)]

/-- Model of Rust's fixed-point formatting `format!("{:.2}", value)`: the
value rounded to hundredths, rendered as sign, integer part, a point and
exactly two fractional digits. (Rust resolves exact decimal ties of the
binary value to even; ties round away from zero in this model.) -/
def formatFixed2 (value : ℚ) : String :=
  (if value < 0 then "-" else "") ++
    renderNat ((roundQ (value * 100)).natAbs / 100) ++ "." ++
    render2 ((roundQ (value * 100)).natAbs % 100)

/-- Embedding of `pretty_print_float`: integral rendering when the value is
within `0.01` of a whole number (strict comparison, as in the source), else
two decimal places. -/
def pretty_print_float (value : ℚ) : String :=
  if |value - (roundQ value : ℚ)| < 0.01 then renderInt (roundQ value)
  else formatFixed2 value

/-- Observation on rendered strings: how many decimal points occur. -/
def dotCount (s : String) : Nat := s.data.count '.'

/-- Observation on rendered strings: how many characters follow the last
decimal point. -/
def fracLen (s : String) : Nat := (s.data.reverse.takeWhile fun c => c != '.').length

/-- The `ProcessState` of the GUI. -/
inductive ProcessState
  | NoInput
  | Idle
  | Running
  | Finished
deriving DecidableEq

/-- Decoded input image data as `load_image` consumes it: pixel dimensions
(used as `f64`) and the optional pixels-per-inch resolution of `Image::new`. -/
structure ImageData where
  width : ℚ
  height : ℚ
  ppi : Option ℚ

/-- The `RepeatyGui` state fields relevant to the dimension model (widget
handles and the GUI toolkit state are presentation plumbing and omitted). -/
structure RepeatyGui where
  input_image_pixels_per_millimeter : ℚ
  input_image_pixel_width : ℚ
  input_image_pixel_height : ℚ
  output_image_pixel_width : ℚ
  output_image_pixel_height : ℚ
  repeat_x : ℚ
  repeat_y : ℚ
  dim_x : ℚ
  dim_y : ℚ
  repeat_x_text : String
  repeat_y_text : String
  dim_x_text : String
  dim_y_text : String
  process_state : ProcessState

/-- Embedding of `RepeatyGui::new` (without the debug-only command-line
load): every numeric field zero, empty texts, idle. -/
def RepeatyGui.new : RepeatyGui :=
  { input_image_pixels_per_millimeter := 0
    input_image_pixel_width := 0
    input_image_pixel_height := 0
    output_image_pixel_width := 0
    output_image_pixel_height := 0
    repeat_x := 0
    repeat_y := 0
    dim_x := 0
    dim_y := 0
    repeat_x_text := ""
    repeat_y_text := ""
    dim_x_text := ""
    dim_y_text := ""
    process_state := ProcessState.Idle }

/-- Embedding of `RepeatyGui::set_repeat_count_x`. -/
def set_repeat_count_x (s : RepeatyGui) (value : ℚ) : RepeatyGui :=
  { s with
    repeat_x := value
    dim_x := value * s.input_image_pixel_width / s.input_image_pixels_per_millimeter
    dim_x_text := pretty_print_float
      (value * s.input_image_pixel_width / s.input_image_pixels_per_millimeter)
    output_image_pixel_width := value * s.input_image_pixel_width
    process_state := ProcessState.Idle }

/-- Embedding of `RepeatyGui::set_repeat_count_y`. -/
def set_repeat_count_y (s : RepeatyGui) (value : ℚ) : RepeatyGui :=
  { s with
    repeat_y := value
    dim_y := value * s.input_image_pixel_height / s.input_image_pixels_per_millimeter
    dim_y_text := pretty_print_float
      (value * s.input_image_pixel_height / s.input_image_pixels_per_millimeter)
    output_image_pixel_height := value * s.input_image_pixel_height
    process_state := ProcessState.Idle }

/-- Embedding of `RepeatyGui::set_dimension_millimeter_x`. -/
def set_dimension_millimeter_x (s : RepeatyGui) (value : ℚ) : RepeatyGui :=
  { s with
    dim_x := value
    repeat_x := value * s.input_image_pixels_per_millimeter / s.input_image_pixel_width
    repeat_x_text := pretty_print_float
      (value * s.input_image_pixels_per_millimeter / s.input_image_pixel_width)
    output_image_pixel_width := value * s.input_image_pixels_per_millimeter /
      s.input_image_pixel_width * s.input_image_pixel_width
    process_state := ProcessState.Idle }

/-- Embedding of `RepeatyGui::set_dimension_millimeter_y`. -/
def set_dimension_millimeter_y (s : RepeatyGui) (value : ℚ) : RepeatyGui :=
  { s with
    dim_y := value
    repeat_y := value * s.input_image_pixels_per_millimeter / s.input_image_pixel_height
    repeat_y_text := pretty_print_float
      (value * s.input_image_pixels_per_millimeter / s.input_image_pixel_height)
    output_image_pixel_height := value * s.input_image_pixels_per_millimeter /
      s.input_image_pixel_height * s.input_image_pixel_height
    process_state := ProcessState.Idle }

/-- Embedding of `RepeatyGui::load_image`: derive pixels-per-millimeter from
the image resolution (72 DPI default), record the pixel dimensions, and apply
the default repeat count of 5 per axis when any of the four model fields is
zero. (The source also treats NaN fields as unset; NaN has no counterpart in
exact arithmetic.) -/
def load_image (s : RepeatyGui) (image : ImageData) : RepeatyGui :=
  let s1 := { s with
    input_image_pixels_per_millimeter :=
      pixel_per_inch_in_pixel_per_millimeter (image.ppi.getD 72)
    input_image_pixel_width := image.width
    input_image_pixel_height := image.height }
  if s1.repeat_x = 0 ∨ s1.repeat_y = 0 ∨ s1.dim_x = 0 ∨ s1.dim_y = 0 then
    let s3 := set_repeat_count_y (set_repeat_count_x s1 5) 5
    { s3 with
      repeat_x_text := pretty_print_float s3.repeat_x
      repeat_y_text := pretty_print_float s3.repeat_y }
  else s1

/-- One user edit of the dimension model: which of the four setters runs. -/
inductive SetterCall
  | setRepeatX (value : ℚ)
  | setRepeatY (value : ℚ)
  | setDimX (value : ℚ)
  | setDimY (value : ℚ)

/-- Dispatch one setter call. -/
def applyCall (s : RepeatyGui) : SetterCall → RepeatyGui
  | SetterCall.setRepeatX v => set_repeat_count_x s v
  | SetterCall.setRepeatY v => set_repeat_count_y s v
  | SetterCall.setDimX v => set_dimension_millimeter_x s v
  | SetterCall.setDimY v => set_dimension_millimeter_y s v

/-- Apply a sequence of setter calls in order. -/
def applyCalls (s : RepeatyGui) (calls : List SetterCall) : RepeatyGui :=
  calls.foldl applyCall s

/-- The X-axis invariant of the dimension model (spec section 3). -/
def InvX (s : RepeatyGui) : Prop :=
  s.dim_x = s.repeat_x * s.input_image_pixel_width / s.input_image_pixels_per_millimeter

/-- The Y-axis invariant of the dimension model (spec section 3). -/
def InvY (s : RepeatyGui) : Prop :=
  s.dim_y = s.repeat_y * s.input_image_pixel_height / s.input_image_pixels_per_millimeter

/-- Modelled from the spec: `ct_lib::system::path_join` is not in this
repository's sources; the spec (section 6) only requires that the output path
is the executable's directory joined with the produced file name. -/
def path_join (dir filename : String) : String := dir ++ "/" ++ filename

/-- Embedding of `get_image_output_filepath`, with the executable directory
and the input's extension-stripped base name supplied by the (unmodelled)
`ct_lib::system` path helpers. -/
def get_image_output_filepath (executable_dir image_basename image_suffix : String) :
    String :=
  path_join executable_dir (image_basename ++ image_suffix)

/-- The suffix built in `RepeatyGui::update` when the start button is
pressed. -/
def output_suffix (s : RepeatyGui) : String :=
  "__" ++ pretty_print_float s.repeat_x ++ "x" ++ pretty_print_float s.repeat_y ++
    "__" ++ pretty_print_float s.dim_x ++ "x" ++ pretty_print_float s.dim_y ++ "mm"

/-- The full output path built in `RepeatyGui::update`. -/
def output_filepath (executable_dir image_basename : String) (s : RepeatyGui) : String :=
  get_image_output_filepath executable_dir image_basename (output_suffix s) ++ ".png"

/-- A concrete loaded-looking state used by witnesses: 100×50 pixels at 10
pixels per millimeter, repeat (2, 3), dimensions (20, 15) mm. -/
def sampleGui : RepeatyGui :=
  { input_image_pixels_per_millimeter := 10
    input_image_pixel_width := 100
    input_image_pixel_height := 50
    output_image_pixel_width := 200
    output_image_pixel_height := 150
    repeat_x := 2
    repeat_y := 3
    dim_x := 20
    dim_y := 15
    repeat_x_text := ""
    repeat_y_text := ""
    dim_x_text := ""
    dim_y_text := ""
    process_state := ProcessState.Idle }

/-! ## Theorems -/

/-- Splitting `List.range total` into `⌈total / chunk_size⌉` contiguous chunks
and mapping `f` over each chunk (with absolute offsets) is the same as mapping
`f` over the whole range. -/
theorem chunked_join (chunk_size : Nat) (hcs : 0 < chunk_size) :
    ∀ (total : Nat) (f : Nat → Nat),
      (List.range (chunkCount total chunk_size)).flatMap
          (fun ci => (List.range (min chunk_size (total - ci * chunk_size))).map
            (fun i => f (i + ci * chunk_size)))
        = (List.range total).map f := by
  intro total
  induction total using Nat.strong_induction_on with
  | _ total ih =>
    intro f
    rcases Nat.eq_zero_or_pos total with h0 | hpos
    · subst h0
      have hc : chunkCount 0 chunk_size = 0 := by
        unfold chunkCount
        exact Nat.div_eq_of_lt (by omega)
      simp [hc]
    · rcases le_or_lt total chunk_size with hle | hlt
      · -- a single chunk covers the whole range
        have hone : chunkCount total chunk_size = 1 := by
          unfold chunkCount
          apply Nat.div_eq_of_lt_le <;> omega
        have hmin : min chunk_size (total - 0 * chunk_size) = total := by
          simp [Nat.min_eq_right hle]
        rw [hone]
        have hr1 : List.range 1 = [0] := rfl
        simp only [hr1, List.flatMap_cons, List.flatMap_nil, List.append_nil,
          Nat.zero_mul, Nat.sub_zero, Nat.add_zero]
        rw [Nat.min_eq_right hle]
      · -- peel off the first (full) chunk and recurse on the rest
        have hnum : chunkCount total chunk_size = chunkCount (total - chunk_size) chunk_size + 1 := by
          unfold chunkCount
          have h1 : total + chunk_size - 1 = (total - chunk_size + chunk_size - 1) + chunk_size := by
            omega
          rw [h1, Nat.add_div_right _ hcs]
        rw [hnum, List.range_succ_eq_map, List.flatMap_cons, List.flatMap_map]
        have hshift : (fun ci => (List.range (min chunk_size (total - Nat.succ ci * chunk_size))).map
              (fun i => f (i + Nat.succ ci * chunk_size)))
            = fun ci => (List.range (min chunk_size ((total - chunk_size) - ci * chunk_size))).map
              (fun i => (fun j => f (j + chunk_size)) (i + ci * chunk_size)) := by
          funext ci
          have h2 : total - Nat.succ ci * chunk_size = (total - chunk_size) - ci * chunk_size := by
            rw [Nat.succ_mul]; omega
          rw [h2]
          apply List.map_congr_left
          intro i _
          have h3 : i + Nat.succ ci * chunk_size = i + ci * chunk_size + chunk_size := by
            rw [Nat.succ_mul]; omega
          rw [h3]
        rw [hshift, ih (total - chunk_size) (by omega) (fun j => f (j + chunk_size))]
        simp only [Nat.zero_mul, Nat.sub_zero, Nat.add_zero]
        rw [Nat.min_eq_left (Nat.le_of_lt hlt)]
        conv_rhs => rw [show total = chunk_size + (total - chunk_size) by omega]
        rw [List.range_add, List.map_append, List.map_map]
        congr 1
        apply List.map_congr_left
        intro j _
        simp [Function.comp, Nat.add_comm]

/-- The chunked parallel composite equals the sequential whole-buffer
`copy_pixels` for every positive chunk size. -/
theorem composite_chunks_eq_seq (input : Bitmap) (outW total chunk_size : Nat)
    (hcs : 0 < chunk_size) :
    composite_chunks input outW total chunk_size = copy_pixels input outW total 0 :=
  chunked_join chunk_size hcs total
    (fun j => input.get ((j % outW) % input.width) ((j / outW) % input.height))

/-- C1: for every source image with positive dimensions and positive output
dimensions `(W, H)`, the compositor produces a buffer of exactly `W * H`
pixels whose pixel at output coordinate `(x, y)` (row-major linear index
`y * W + x`) equals the source pixel at `(x mod w, y mod h)`. -/
theorem c1_compositor_wrapped_tiling (input : Bitmap) (W H : Nat)
    (hw : 0 < input.width) (hh : 0 < input.height) (hW : 0 < W) (hH : 0 < H)
    (x y : Nat) (hx : x < W) (hy : y < H) :
    (create_pattern_png input W H).data.length = W * H ∧
    (create_pattern_png input W H).data.getD (y * W + x) 0 =
      input.get (x % input.width) (y % input.height) := by
  have hseq : (create_pattern_png input W H).data = copy_pixels input W (W * H) 0 :=
    composite_chunks_eq_seq input W (W * H) CHUNK_SIZE (by norm_num [CHUNK_SIZE])
  constructor
  · rw [hseq]
    simp [copy_pixels]
  · rw [hseq]
    have hidx : y * W + x < W * H := by
      calc y * W + x < y * W + W := by omega
        _ = (y + 1) * W := by ring
        _ ≤ H * W := Nat.mul_le_mul_right _ (by omega)
        _ = W * H := Nat.mul_comm _ _
    unfold copy_pixels
    rw [List.getD_eq_getElem?_getD, List.getElem?_map, List.getElem?_range hidx]
    have e1 : (y * W + x + 0) % W = x := by
      rw [Nat.add_zero, Nat.mul_comm y W, Nat.mul_add_mod, Nat.mod_eq_of_lt hx]
    have e2 : (y * W + x + 0) / W = y := by
      rw [Nat.add_zero, Nat.mul_comm y W, Nat.mul_add_div hW, Nat.div_eq_of_lt hx,
        Nat.add_zero]
    simp only [Option.map_some', Option.getD_some]
    rw [e1, e2]

/-- Witness for C1 at a concrete 2×1 source tiled to 4×2. -/
theorem c1_compositor_wrapped_tiling_witness :
    (create_pattern_png ⟨2, 1, [10, 20]⟩ 4 2).data.length = 4 * 2 ∧
    (create_pattern_png ⟨2, 1, [10, 20]⟩ 4 2).data.getD (1 * 4 + 3) 0 =
      Bitmap.get ⟨2, 1, [10, 20]⟩ (3 % 2) (1 % 1) :=
  c1_compositor_wrapped_tiling ⟨2, 1, [10, 20]⟩ 4 2 (by decide) (by decide)
    (by decide) (by decide) 3 1 (by decide) (by decide)

/-- C2: partitioning the output buffer into contiguous chunks of any positive
chunk size and filling each chunk independently via `copy_pixels` (with the
chunk's absolute starting linear offset) is identical to the sequential
whole-buffer composite; hence the output is fully determined by the source
image and the output dimensions, independent of the chunk size. -/
theorem c2_chunked_composite_deterministic (input : Bitmap) (W H chunk_size : Nat)
    (hcs : 0 < chunk_size) :
    composite_chunks input W (W * H) chunk_size = copy_pixels input W (W * H) 0 :=
  composite_chunks_eq_seq input W (W * H) chunk_size hcs

/-- Witness for C2: a 1×1 source tiled to 3×2 with chunk size 4. -/
theorem c2_chunked_composite_deterministic_witness :
    composite_chunks ⟨1, 1, [7]⟩ 3 (3 * 2) 4 = copy_pixels ⟨1, 1, [7]⟩ 3 (3 * 2) 0 :=
  c2_chunked_composite_deterministic ⟨1, 1, [7]⟩ 3 2 4 (by decide)

/-- Reading the big-endian length prefix back from its encoding. -/
theorem readBE32_encode (pre rest : List Nat) (n : Nat) (hn : n < 2 ^ 32) :
    readBE32 (pre ++ (be32 n ++ rest)) pre.length = some n := by
  unfold readBE32 be32
  rw [List.drop_left]
  simp only [List.cons_append, List.nil_append]
  congr 1
  omega

/-- Length of one serialized chunk. -/
theorem encodeChunk_length (c : RawChunk) (hty : c.ctype.length = 4)
    (hcrc : c.crc.length = 4) :
    (encodeChunk c).length = 4 + 4 + c.cdata.length + 4 := by
  simp [encodeChunk, be32, hty, hcrc]
  omega

/-- One iteration of the scanner consumes exactly one well-formed serialized
chunk and performs the allow-list update. -/
theorem scanChunks_step (pre rest : List Nat) (c : RawChunk) (acc : ChunkMap)
    (hwf : WfChunk c) :
    scanChunks (pre ++ encodeChunk c ++ rest) pre.length acc =
      scanChunks (pre ++ encodeChunk c ++ rest)
        (pre.length + (encodeChunk c).length) (stepAcc acc c.ctype c.cdata) := by
  obtain ⟨hty, hcrc, hlen, hutf⟩ := hwf
  have hencl : (encodeChunk c).length = 4 + 4 + c.cdata.length + 4 :=
    encodeChunk_length c hty hcrc
  set bytes := pre ++ encodeChunk c ++ rest with hbytes
  have hblen : bytes.length = pre.length + (4 + 4 + c.cdata.length + 4) + rest.length := by
    simp only [hbytes, List.length_append, hencl]
  have hlt : pre.length < bytes.length := by omega
  have hread : readBE32 bytes pre.length = some c.cdata.length := by
    have h1 : bytes = pre ++ (be32 c.cdata.length ++ (c.ctype ++ c.cdata ++ c.crc ++ rest)) := by
      simp [hbytes, encodeChunk, List.append_assoc]
    rw [h1]
    exact readBE32_encode _ _ _ hlen
  have hctype : (bytes.drop (pre.length + 4)).take 4 = c.ctype := by
    have h1 : bytes = (pre ++ be32 c.cdata.length) ++ (c.ctype ++ (c.cdata ++ c.crc ++ rest)) := by
      simp [hbytes, encodeChunk, List.append_assoc]
    have h2 : (pre ++ be32 c.cdata.length).length = pre.length + 4 := by
      simp [be32]
    rw [h1, List.drop_left' h2, List.take_left' hty]
  have hcdata : (bytes.drop (pre.length + 4 + 4)).take c.cdata.length = c.cdata := by
    have h1 : bytes = (pre ++ be32 c.cdata.length ++ c.ctype) ++ (c.cdata ++ (c.crc ++ rest)) := by
      simp [hbytes, encodeChunk, List.append_assoc]
    have h2 : (pre ++ be32 c.cdata.length ++ c.ctype).length = pre.length + 4 + 4 := by
      simp [be32, hty]
    rw [h1, List.drop_left' h2, List.take_left' rfl]
  have hfit : 4 + 4 + c.cdata.length + 4 ≤ bytes.length - pre.length := by omega
  rw [scanChunks.eq_def]
  rw [dif_pos hlt, hread]
  simp only [hctype, hcdata, hutf, hencl, hfit, if_true]

/-- Walking a serialized sequence of well-formed chunks performs all its
allow-list updates and ends just past the sequence. -/
theorem scanChunks_walk (cs : List RawChunk) :
    ∀ (pre tailBytes : List Nat) (acc : ChunkMap), (∀ c ∈ cs, WfChunk c) →
      scanChunks (pre ++ encodeChunks cs ++ tailBytes) pre.length acc =
        scanChunks (pre ++ encodeChunks cs ++ tailBytes)
          (pre.length + (encodeChunks cs).length) (insertAll acc cs) := by
  induction cs with
  | nil =>
    intro pre tailBytes acc _
    simp [encodeChunks, insertAll]
  | cons c cs ih =>
    intro pre tailBytes acc hwf
    have hc : WfChunk c := hwf c (List.mem_cons_self c cs)
    have hcs : ∀ d ∈ cs, WfChunk d := fun d hd => hwf d (List.mem_cons_of_mem _ hd)
    have hbytes : pre ++ encodeChunks (c :: cs) ++ tailBytes
        = (pre ++ encodeChunk c) ++ encodeChunks cs ++ tailBytes := by
      simp [encodeChunks, List.flatMap_cons, List.append_assoc]
    have hstep := scanChunks_step pre (encodeChunks cs ++ tailBytes) c acc hc
    rw [show pre ++ encodeChunks (c :: cs) ++ tailBytes
        = pre ++ encodeChunk c ++ (encodeChunks cs ++ tailBytes) by
      simp [encodeChunks, List.flatMap_cons, List.append_assoc]]
    rw [hstep]
    rw [show pre ++ encodeChunk c ++ (encodeChunks cs ++ tailBytes)
        = (pre ++ encodeChunk c) ++ encodeChunks cs ++ tailBytes by
      simp [List.append_assoc]]
    rw [show pre.length + (encodeChunk c).length = (pre ++ encodeChunk c).length by simp]
    rw [ih (pre ++ encodeChunk c) tailBytes _ hcs]
    have hpos : (pre ++ encodeChunk c).length + (encodeChunks cs).length
        = pre.length + (encodeChunks (c :: cs)).length := by
      simp [encodeChunks, List.flatMap_cons]
      omega
    rw [hpos]
    rfl

/-- The last element of a cons is the last of the tail, falling back on the
head. -/
theorem getLast?_cons_or {α : Type} (a : α) (l : List α) :
    (a :: l).getLast? = l.getLast?.or (some a) := by
  cases l with
  | nil => rfl
  | cons b l2 =>
    rw [List.getLast?_cons_cons]
    obtain ⟨x, hx⟩ := Option.isSome_iff_exists.mp
      (List.getLast?_isSome.mpr (List.cons_ne_nil b l2))
    rw [hx]
    rfl

/-- Lookup in the accumulated map: the payload of the last kept chunk of type
`t`, falling back on the initial accumulator. -/
theorem insertAll_lookup (t : List Nat) :
    ∀ (cs : List RawChunk) (acc : ChunkMap),
      insertAll acc cs t =
        (((cs.filter fun c => keepType c.ctype && c.ctype == t).map RawChunk.cdata).getLast?).or
          (acc t) := by
  intro cs
  induction cs with
  | nil =>
    intro acc
    simp [insertAll]
  | cons c cs ih =>
    intro acc
    have hstep : insertAll acc (c :: cs) = insertAll (stepAcc acc c.ctype c.cdata) cs := rfl
    rw [hstep, ih]
    by_cases hk : (keepType c.ctype && c.ctype == t) = true
    · rw [List.filter_cons, if_pos hk, List.map_cons, getLast?_cons_or, Option.or_assoc]
      have hkeep : keepType c.ctype = true := (Bool.and_eq_true_iff.mp hk).1
      have heq : c.ctype = t := eq_of_beq (Bool.and_eq_true_iff.mp hk).2
      subst heq
      congr 1
      simp [stepAcc, insertChunk, hkeep]
    · rw [List.filter_cons, if_neg hk]
      by_cases hkeep : keepType c.ctype = true
      · have hne : ¬ c.ctype = t := by
          intro h
          apply hk
          rw [Bool.and_eq_true_iff]
          exact ⟨hkeep, beq_iff_eq.mpr h⟩
        have hne2 : ¬ t = c.ctype := fun h => hne h.symm
        simp [stepAcc, insertChunk, hkeep, hne2]
      · simp [stepAcc, hkeep]

/-- C3: for every well-formed PNG byte stream (valid signature followed by a
nonempty sequence of well-formed length-prefixed chunks) the scanner succeeds,
and the resulting map holds exactly the allow-listed chunk types that occur,
each bound to the payload of its last occurrence, and no other keys. -/
theorem c3_scanner_extracts_allowlisted (cs : List RawChunk) (hne : cs ≠ [])
    (hwf : ∀ c ∈ cs, WfChunk c) (t : List Nat) :
    png_extract_chunks_to_copy (PNG_HEADER ++ encodeChunks cs)
        = Except.ok (insertAll emptyChunkMap cs) ∧
      insertAll emptyChunkMap cs t =
        (if keepType t then
          ((cs.filter fun c => c.ctype == t).map RawChunk.cdata).getLast?
        else none) := by
  constructor
  · obtain ⟨c0, cs2, rfl⟩ := List.exists_cons_of_ne_nil hne
    have hc0 : WfChunk c0 := hwf c0 (List.mem_cons_self c0 cs2)
    have hcl : (encodeChunk c0).length = 4 + 4 + c0.cdata.length + 4 :=
      encodeChunk_length c0 hc0.1 hc0.2.1
    have h12 : 12 ≤ (encodeChunks (c0 :: cs2)).length := by
      simp only [encodeChunks, List.flatMap_cons, List.length_append, hcl]
      omega
    have hgt : PNG_HEADER.length < (PNG_HEADER ++ encodeChunks (c0 :: cs2)).length := by
      rw [List.length_append]
      have h8 : PNG_HEADER.length = 8 := rfl
      omega
    have htake : (PNG_HEADER ++ encodeChunks (c0 :: cs2)).take 8 = PNG_HEADER :=
      List.take_left' rfl
    unfold png_extract_chunks_to_copy
    rw [if_pos hgt, if_pos htake]
    have hwalk := scanChunks_walk (c0 :: cs2) PNG_HEADER [] emptyChunkMap hwf
    rw [List.append_nil] at hwalk
    have h8 : PNG_HEADER.length = 8 := rfl
    rw [h8] at hwalk
    rw [hwalk]
    rw [scanChunks.eq_def]
    have hend : ¬ 8 + (encodeChunks (c0 :: cs2)).length
        < (PNG_HEADER ++ encodeChunks (c0 :: cs2)).length := by
      rw [List.length_append]
      have h8 : PNG_HEADER.length = 8 := rfl
      omega
    rw [dif_neg hend]
  · rw [insertAll_lookup t cs emptyChunkMap]
    have hempty : emptyChunkMap t = none := rfl
    rw [hempty, Option.or_none]
    by_cases hkt : keepType t = true
    · rw [if_pos hkt]
      congr 2
      apply List.filter_congr
      intro c _
      by_cases hct : (c.ctype == t) = true
      · have : c.ctype = t := eq_of_beq hct
        simp [this, hkt]
      · simp [hct]
    · rw [if_neg hkt]
      have hnil : (cs.filter fun c => keepType c.ctype && c.ctype == t) = [] := by
        apply List.filter_eq_nil_iff.mpr
        intro c _
        by_cases hct : (c.ctype == t) = true
        · have hce : c.ctype = t := eq_of_beq hct
          simp [hce, hkt]
        · simp [hct]
      rw [hnil]
      rfl

/-- Witness for C3: a stream holding a single gAMA chunk, looked up at gAMA. -/
theorem c3_scanner_extracts_allowlisted_witness :
    png_extract_chunks_to_copy
        (PNG_HEADER ++ encodeChunks [⟨typegAMA, [1, 2, 3], [9, 9, 9, 9]⟩])
        = Except.ok (insertAll emptyChunkMap [⟨typegAMA, [1, 2, 3], [9, 9, 9, 9]⟩]) ∧
      insertAll emptyChunkMap [⟨typegAMA, [1, 2, 3], [9, 9, 9, 9]⟩] typegAMA =
        (if keepType typegAMA then
          (([⟨typegAMA, [1, 2, 3], [9, 9, 9, 9]⟩].filter
            fun c => c.ctype == typegAMA).map RawChunk.cdata).getLast?
        else none) :=
  c3_scanner_extracts_allowlisted [⟨typegAMA, [1, 2, 3], [9, 9, 9, 9]⟩]
    (List.cons_ne_nil _ _) (by decide) typegAMA

/-- C3 counterexample: the bare 8-byte signature is a valid signature followed
by the (empty) sequence of length-prefixed chunks, yet the loader rejects it
with an error instead of returning an empty map, because the source asserts
`file_bytes.len() > PNG_HEADER.len()`. -/
theorem c3_counterexample_zero_chunks :
    png_extract_chunks_to_copy (PNG_HEADER ++ encodeChunks []) =
      Except.error DecodeError.BadSignature := rfl

/-- A successful big-endian read needs four bytes at the read position. -/
theorem readBE32_bound (bytes : List Nat) (pos L : Nat)
    (h : readBE32 bytes pos = some L) : pos + 4 ≤ bytes.length := by
  by_contra hcon
  have hlen : (bytes.drop pos).length < 4 := by
    rw [List.length_drop]
    omega
  unfold readBE32 at h
  rcases hd : bytes.drop pos with _ | ⟨b0, _ | ⟨b1, _ | ⟨b2, _ | ⟨b3, rest⟩⟩⟩⟩ <;>
    rw [hd] at h hlen <;> simp at h hlen <;> omega

/-- C4: a byte stream whose first eight bytes differ from the PNG signature,
or in which the chunk reached after a well-formed prefix declares a data
length with `length + 12` exceeding the remaining bytes, makes the load
produce a decode-error result (the model is total, so no out-of-bounds read
or panic exists). -/
theorem c4_malformed_input_rejected (bytes : List Nat)
    (hbad : bytes.take 8 ≠ PNG_HEADER ∨
      ∃ (cs : List RawChunk) (tailBytes : List Nat) (L : Nat),
        (∀ c ∈ cs, WfChunk c) ∧
        bytes = PNG_HEADER ++ encodeChunks cs ++ tailBytes ∧
        readBE32 bytes (8 + (encodeChunks cs).length) = some L ∧
        bytes.length - (8 + (encodeChunks cs).length) < 4 + 4 + L + 4) :
    ∃ e, png_extract_chunks_to_copy bytes = Except.error e := by
  rcases hbad with hsig | ⟨cs, tailBytes, L, hwf, hb, hread, hshort⟩
  · unfold png_extract_chunks_to_copy
    by_cases hlt : PNG_HEADER.length < bytes.length
    · rw [if_pos hlt, if_neg hsig]
      exact ⟨_, rfl⟩
    · rw [if_neg hlt]
      exact ⟨_, rfl⟩
  · have h4 : 8 + (encodeChunks cs).length + 4 ≤ bytes.length :=
      readBE32_bound bytes _ L hread
    have htake : bytes.take 8 = PNG_HEADER := by
      rw [hb, List.append_assoc]
      exact List.take_left' rfl
    have hgt : PNG_HEADER.length < bytes.length := by
      have h8 : PNG_HEADER.length = 8 := rfl
      omega
    unfold png_extract_chunks_to_copy
    rw [if_pos hgt, if_pos htake]
    have hwalk := scanChunks_walk cs PNG_HEADER tailBytes emptyChunkMap hwf
    have h8 : PNG_HEADER.length = 8 := rfl
    rw [h8] at hwalk
    rw [← hb] at hwalk
    rw [hwalk]
    refine ⟨DecodeError.Truncated, ?_⟩
    rw [scanChunks.eq_def]
    have hpos : 8 + (encodeChunks cs).length < bytes.length := by omega
    rw [dif_pos hpos, hread]
    have hno : ¬ 4 + 4 + L + 4 ≤ bytes.length - (8 + (encodeChunks cs).length) := by
      omega
    simp only [hno, if_false]

/-- Witness for C4 on a stream with a corrupted signature. -/
theorem c4_malformed_input_rejected_witness :
    ∃ e, png_extract_chunks_to_copy [0, 1, 2] = Except.error e :=
  c4_malformed_input_rejected [0, 1, 2] (Or.inl (by decide))

/-- C10: the chunk-scanning loop terminates on every input: since each
iteration advances by a complete chunk of at least 12 bytes, a fuel budget of
`⌈remaining / 12⌉` iterations already makes the operational (fuelled) loop
finish with the value of the total scan function. -/
theorem c10_scan_loop_terminates (bytes : List Nat) (fuel pos : Nat) (acc : ChunkMap)
    (hfuel : bytes.length - pos ≤ 12 * fuel) :
    scanChunksFuel (fuel + 1) bytes pos acc = some (scanChunks bytes pos acc) := by
  induction fuel generalizing pos acc with
  | zero =>
    have hge : ¬ pos < bytes.length := by omega
    rw [scanChunks.eq_def, dif_neg hge]
    simp [scanChunksFuel, hge]
  | succ fuel ih =>
    by_cases hp : pos < bytes.length
    · rw [scanChunks.eq_def, dif_pos hp]
      simp only [scanChunksFuel]
      rw [if_pos hp]
      cases hr : readBE32 bytes pos with
      | none => rfl
      | some L =>
        by_cases hc : 4 + 4 + L + 4 ≤ bytes.length - pos
        · by_cases hu : utf8Valid ((bytes.drop (pos + 4)).take 4) = true
          · simp only [hc, hu, if_true]
            exact ih _ _ (by omega)
          · simp [hc, hu]
        · simp [hc]
    · rw [scanChunks.eq_def, dif_neg hp]
      simp [scanChunksFuel, hp]

/-- Witness for C10: one complete 12-byte chunk scanned with fuel 1. -/
theorem c10_scan_loop_terminates_witness :
    scanChunksFuel 2 (encodeChunk ⟨typegAMA, [], [0, 0, 0, 0]⟩) 0 emptyChunkMap =
      some (scanChunks (encodeChunk ⟨typegAMA, [], [0, 0, 0, 0]⟩) 0 emptyChunkMap) :=
  c10_scan_loop_terminates (encodeChunk ⟨typegAMA, [], [0, 0, 0, 0]⟩) 1 0 emptyChunkMap
    (by decide)

/-- C5: the pHYs policy of `get_ppi_from_png_metadata`: an absent chunk, a
non-meter unit or mismatched horizontal/vertical density give `none` (unknown
resolution) while the load still succeeds; unit 1 with equal densities `d`
gives `some` of `d` converted from pixels-per-meter to pixels-per-inch. -/
theorem c5_phys_resolution_policy (m : ChunkMap) (payload : List Nat) (info : PngPhys) :
    (m typepHYs = none → get_ppi_from_png_metadata m = Except.ok none) ∧
    (m typepHYs = some payload → parsePngPhys payload = some info →
      ((info.unit_is_meter ≠ 1 ∨ info.pixel_per_unit_x ≠ info.pixel_per_unit_y) →
        get_ppi_from_png_metadata m = Except.ok none) ∧
      (info.unit_is_meter = 1 → info.pixel_per_unit_x = info.pixel_per_unit_y →
        get_ppi_from_png_metadata m =
          Except.ok (some (pixel_per_meter_in_pixel_per_inch
            (info.pixel_per_unit_x : ℚ))))) := by
  refine ⟨fun h => ?_, fun hm hp => ⟨fun hbad => ?_, fun hu hxy => ?_⟩⟩
  · unfold get_ppi_from_png_metadata
    rw [h]
  · unfold get_ppi_from_png_metadata
    rcases hbad with h1 | h1
    · simp [hm, hp, h1]
    · by_cases h2 : info.unit_is_meter = 1
      · simp [hm, hp, h1, h2]
      · simp [hm, hp, h2]
  · unfold get_ppi_from_png_metadata
    simp [hm, hp, hu, hxy]

/-- Witness for C5: a map holding pHYs = (11811, 11811, meter), about 300
DPI. -/
theorem c5_phys_resolution_policy_witness :
    get_ppi_from_png_metadata
        (insertChunk emptyChunkMap typepHYs [0, 0, 46, 35, 0, 0, 46, 35, 1]) =
      Except.ok (some (pixel_per_meter_in_pixel_per_inch (11811 : ℚ))) :=
  ((c5_phys_resolution_policy
      (insertChunk emptyChunkMap typepHYs [0, 0, 46, 35, 0, 0, 46, 35, 1])
      [0, 0, 46, 35, 0, 0, 46, 35, 1] ⟨11811, 11811, 1⟩).2 rfl rfl).2 rfl rfl

/-- Each setter leaves the per-image constants (resolution and source pixel
sizes) untouched. -/
theorem applyCall_fixed_fields (s : RepeatyGui) (c : SetterCall) :
    (applyCall s c).input_image_pixels_per_millimeter = s.input_image_pixels_per_millimeter ∧
    (applyCall s c).input_image_pixel_width = s.input_image_pixel_width ∧
    (applyCall s c).input_image_pixel_height = s.input_image_pixel_height := by
  cases c <;>
    simp [applyCall, set_repeat_count_x, set_repeat_count_y,
      set_dimension_millimeter_x, set_dimension_millimeter_y]

/-- Every setter re-establishes the X-axis invariant: the two X-axis setters
recompute the paired field outright, and the Y-axis setters do not touch the
X fields. -/
theorem applyCall_invX (s : RepeatyGui)
    (hp : s.input_image_pixels_per_millimeter ≠ 0)
    (hw : s.input_image_pixel_width ≠ 0)
    (hX : InvX s) (c : SetterCall) : InvX (applyCall s c) := by
  cases c with
  | setRepeatX v => simp [applyCall, set_repeat_count_x, InvX]
  | setRepeatY v => simpa [applyCall, set_repeat_count_y, InvX] using hX
  | setDimX v =>
    simp [applyCall, set_dimension_millimeter_x, InvX]
    rw [div_mul_cancel₀ _ hw, mul_div_cancel_right₀ _ hp]
  | setDimY v => simpa [applyCall, set_dimension_millimeter_y, InvX] using hX

/-- Every setter re-establishes the Y-axis invariant. -/
theorem applyCall_invY (s : RepeatyGui)
    (hp : s.input_image_pixels_per_millimeter ≠ 0)
    (hh : s.input_image_pixel_height ≠ 0)
    (hY : InvY s) (c : SetterCall) : InvY (applyCall s c) := by
  cases c with
  | setRepeatX v => simpa [applyCall, set_repeat_count_x, InvY] using hY
  | setRepeatY v => simp [applyCall, set_repeat_count_y, InvY]
  | setDimX v => simpa [applyCall, set_dimension_millimeter_x, InvY] using hY
  | setDimY v =>
    simp [applyCall, set_dimension_millimeter_y, InvY]
    rw [div_mul_cancel₀ _ hh, mul_div_cancel_right₀ _ hp]

/-- C6: with fixed positive resolution and source pixel sizes, each of the
four setters re-establishes the invariant on its own axis immediately and
keeps the other axis intact, so after any sequence of setter calls no stale
repeat/dimension pair persists. -/
theorem c6_no_stale_pair (s : RepeatyGui)
    (hp : 0 < s.input_image_pixels_per_millimeter)
    (hw : 0 < s.input_image_pixel_width)
    (hh : 0 < s.input_image_pixel_height)
    (hX : InvX s) (hY : InvY s) (calls : List SetterCall) :
    InvX (applyCalls s calls) ∧ InvY (applyCalls s calls) := by
  induction calls generalizing s with
  | nil => exact ⟨hX, hY⟩
  | cons c calls ih =>
    obtain ⟨f1, f2, f3⟩ := applyCall_fixed_fields s c
    have hstep : applyCalls s (c :: calls) = applyCalls (applyCall s c) calls := rfl
    rw [hstep]
    exact ih (applyCall s c) (f1 ▸ hp) (f2 ▸ hw) (f3 ▸ hh)
      (applyCall_invX s (ne_of_gt hp) (ne_of_gt hw) hX c)
      (applyCall_invY s (ne_of_gt hp) (ne_of_gt hh) hY c)

/-- Witness for C6: one dimension edit on the sample state. -/
theorem c6_no_stale_pair_witness :
    InvX (applyCalls sampleGui [SetterCall.setDimX 30]) ∧
    InvY (applyCalls sampleGui [SetterCall.setDimX 30]) :=
  c6_no_stale_pair sampleGui (by norm_num [sampleGui]) (by norm_num [sampleGui])
    (by norm_num [sampleGui]) (by norm_num [InvX, sampleGui])
    (by norm_num [InvY, sampleGui]) [SetterCall.setDimX 30]

/-- C7: setting repeat X to `r`, reading the resulting millimeter dimension
and feeding it back through the dimension-X setter recovers `r` within the
claimed relative tolerance (exactly, in exact arithmetic). -/
theorem c7_round_trip (s : RepeatyGui) (r : ℚ)
    (hp : 0 < s.input_image_pixels_per_millimeter)
    (hw : 0 < s.input_image_pixel_width)
    (hr : 0 < r) :
    |(set_dimension_millimeter_x (set_repeat_count_x s r)
        (set_repeat_count_x s r).dim_x).repeat_x - r| ≤ 1 / 1000000000 * |r| := by
  have hp2 : s.input_image_pixels_per_millimeter ≠ 0 := ne_of_gt hp
  have hw2 : s.input_image_pixel_width ≠ 0 := ne_of_gt hw
  have hexact : (set_dimension_millimeter_x (set_repeat_count_x s r)
      (set_repeat_count_x s r).dim_x).repeat_x = r := by
    simp [set_dimension_millimeter_x, set_repeat_count_x]
    rw [div_mul_cancel₀ _ hp2, mul_div_cancel_right₀ _ hw2]
  rw [hexact, sub_self, abs_zero]
  positivity

/-- Witness for C7 on the sample state with repeat 2. -/
theorem c7_round_trip_witness :
    |(set_dimension_millimeter_x (set_repeat_count_x sampleGui 2)
        (set_repeat_count_x sampleGui 2).dim_x).repeat_x - 2| ≤
      1 / 1000000000 * |(2 : ℚ)| :=
  c7_round_trip sampleGui 2 (by norm_num [sampleGui]) (by norm_num [sampleGui])
    (by norm_num)

/-- C9: loading an image into a state whose four model fields include a zero
(in particular the fresh state) creates the model with default repeat 5 on
each axis and the paired millimeter dimensions recomputed through the
invariant equation. -/
theorem c9_load_defaults (s : RepeatyGui) (image : ImageData)
    (hz : s.repeat_x = 0 ∨ s.repeat_y = 0 ∨ s.dim_x = 0 ∨ s.dim_y = 0) :
    (load_image s image).repeat_x = 5 ∧ (load_image s image).repeat_y = 5 ∧
    (load_image s image).dim_x = 5 * (load_image s image).input_image_pixel_width /
      (load_image s image).input_image_pixels_per_millimeter ∧
    (load_image s image).dim_y = 5 * (load_image s image).input_image_pixel_height /
      (load_image s image).input_image_pixels_per_millimeter := by
  unfold load_image
  dsimp only
  split
  · exact ⟨rfl, rfl, rfl, rfl⟩
  · next hfalse => exact absurd hz hfalse

/-- Witness for C9: loading a 100×50 image with 254 DPI into the fresh
state. -/
theorem c9_load_defaults_witness :
    (load_image RepeatyGui.new ⟨100, 50, some 254⟩).repeat_x = 5 ∧
    (load_image RepeatyGui.new ⟨100, 50, some 254⟩).repeat_y = 5 ∧
    (load_image RepeatyGui.new ⟨100, 50, some 254⟩).dim_x =
      5 * (load_image RepeatyGui.new ⟨100, 50, some 254⟩).input_image_pixel_width /
        (load_image RepeatyGui.new ⟨100, 50, some 254⟩).input_image_pixels_per_millimeter ∧
    (load_image RepeatyGui.new ⟨100, 50, some 254⟩).dim_y =
      5 * (load_image RepeatyGui.new ⟨100, 50, some 254⟩).input_image_pixel_height /
        (load_image RepeatyGui.new ⟨100, 50, some 254⟩).input_image_pixels_per_millimeter :=
  c9_load_defaults RepeatyGui.new ⟨100, 50, some 254⟩ (Or.inl rfl)

/-- Digit characters are not the decimal point. -/
theorem digitChar_ne_dot (d : Nat) (hd : d < 10) : digitChar d ≠ '.' := by
  interval_cases d <;> decide

/-- A rendered natural number contains no decimal point. -/
theorem renderNat_no_dot (n : Nat) : '.' ∉ (renderNat n).data := by
  unfold renderNat
  by_cases h : n = 0
  · rw [if_pos h]
    decide
  · rw [if_neg h]
    intro hmem
    have hmem2 : '.' ∈ ((Nat.digits 10 n).reverse).map digitChar := hmem
    obtain ⟨d, hdm, hdc⟩ := List.mem_map.mp hmem2
    have hd10 : d < 10 := Nat.digits_lt_base (by norm_num) (List.mem_reverse.mp hdm)
    exact digitChar_ne_dot d hd10 hdc

/-- A rendered integer contains no decimal point. -/
theorem renderInt_no_dot (i : ℤ) : '.' ∉ (renderInt i).data := by
  unfold renderInt
  by_cases h : i < 0
  · rw [if_pos h, String.data_append]
    intro hmem
    rcases List.mem_append.mp hmem with hm | hm
    · revert hm
      decide
    · exact renderNat_no_dot _ hm
  · rw [if_neg h]
    exact renderNat_no_dot _

/-- The two-digit rendering contains no decimal point. -/
theorem render2_no_dot (k : Nat) : '.' ∉ (render2 k).data := by
  intro hmem
  have hm2 : '.' ∈ [digitChar (k / 10 % 10), digitChar (k % 10)] := hmem
  rcases List.mem_cons.mp hm2 with h | h
  · exact digitChar_ne_dot _ (Nat.mod_lt _ (by norm_num)) h.symm
  · rcases List.mem_cons.mp h with h2 | h2
    · exact digitChar_ne_dot _ (Nat.mod_lt _ (by norm_num)) h2.symm
    · simp at h2

/-- Every character of the two-digit rendering differs from the point, as a
Boolean fact for `takeWhile`. -/
theorem render2_bne_dot (k : Nat) : ∀ a ∈ (render2 k).data, (a != '.') = true := by
  intro a ha
  have h1 : k / 10 % 10 < 10 := Nat.mod_lt _ (by norm_num)
  have h2 : k % 10 < 10 := Nat.mod_lt _ (by norm_num)
  have ha2 : a = digitChar (k / 10 % 10) ∨ a = digitChar (k % 10) := by
    simpa [render2] using ha
  rcases ha2 with rfl | rfl
  · exact bne_iff_ne.mpr (digitChar_ne_dot _ h1)
  · exact bne_iff_ne.mpr (digitChar_ne_dot _ h2)

/-- Taking while over a list whose prefix satisfies the predicate and whose
next element fails it returns exactly the prefix. -/
theorem takeWhile_prefix_stop {p : Char → Bool} (l r : List Char) (x : Char)
    (hl : ∀ a ∈ l, p a = true) (hx : p x = false) :
    (l ++ x :: r).takeWhile p = l := by
  induction l with
  | nil => simp [List.takeWhile_cons, hx]
  | cons a l ih =>
    rw [List.cons_append, List.takeWhile_cons, if_pos (hl a (List.mem_cons_self a l)),
      ih (fun b hb => hl b (List.mem_cons_of_mem a hb))]

/-- The character decomposition of the fixed-point rendering. -/
theorem formatFixed2_data (v : ℚ) :
    (formatFixed2 v).data =
      ((if v < 0 then "-" else "") : String).data ++
        ((renderNat ((roundQ (v * 100)).natAbs / 100)).data ++
          ('.' :: (render2 ((roundQ (v * 100)).natAbs % 100)).data)) := by
  unfold formatFixed2
  have hdot : ("." : String).data = ['.'] := rfl
  simp [String.data_append, hdot]

/-- The fixed-point rendering contains exactly one decimal point. -/
theorem formatFixed2_dotCount (v : ℚ) : dotCount (formatFixed2 v) = 1 := by
  unfold dotCount
  rw [formatFixed2_data]
  have hS : (((if v < 0 then "-" else "") : String).data).count '.' = 0 := by
    by_cases h : v < 0
    · rw [if_pos h]
      decide
    · rw [if_neg h]
      decide
  have hI : ((renderNat ((roundQ (v * 100)).natAbs / 100)).data).count '.' = 0 :=
    List.count_eq_zero.mpr (renderNat_no_dot _)
  have hR : ((render2 ((roundQ (v * 100)).natAbs % 100)).data).count '.' = 0 :=
    List.count_eq_zero.mpr (render2_no_dot _)
  simp [List.count_append, List.count_cons, hS, hI, hR]

/-- The fixed-point rendering has exactly two characters after the point. -/
theorem formatFixed2_fracLen (v : ℚ) : fracLen (formatFixed2 v) = 2 := by
  unfold fracLen
  rw [formatFixed2_data]
  have hrev : ((((if v < 0 then "-" else "") : String).data) ++
        ((renderNat ((roundQ (v * 100)).natAbs / 100)).data ++
          ('.' :: (render2 ((roundQ (v * 100)).natAbs % 100)).data))).reverse
      = ((render2 ((roundQ (v * 100)).natAbs % 100)).data).reverse ++
          '.' :: (((renderNat ((roundQ (v * 100)).natAbs / 100)).data).reverse ++
            (((if v < 0 then "-" else "") : String).data).reverse) := by
    simp [List.reverse_append]
  rw [hrev, takeWhile_prefix_stop _ _ '.'
    (fun a ha => render2_bne_dot _ a (List.mem_reverse.mp ha)) (by decide)]
  simp [render2]

/-- C8: the numeric formatter renders a value strictly within 0.01 of a whole
number as a decimal integer (the value rounded to nearest, no decimal point)
and any other value with exactly two decimal places; and the output file path
is the input's base name, the `__RxR__DxDmm` suffix formed from the four
formatted values, and the `.png` extension, joined onto the executable's
directory. -/
theorem c8_output_filename_formatting (v : ℚ) (executable_dir image_basename : String)
    (s : RepeatyGui) :
    (|v - (roundQ v : ℚ)| < 0.01 →
      pretty_print_float v = renderInt (roundQ v) ∧
      dotCount (pretty_print_float v) = 0) ∧
    (¬ |v - (roundQ v : ℚ)| < 0.01 →
      dotCount (pretty_print_float v) = 1 ∧ fracLen (pretty_print_float v) = 2) ∧
    output_filepath executable_dir image_basename s =
      executable_dir ++ "/" ++ (image_basename ++
        ("__" ++ pretty_print_float s.repeat_x ++ "x" ++ pretty_print_float s.repeat_y ++
          "__" ++ pretty_print_float s.dim_x ++ "x" ++ pretty_print_float s.dim_y ++ "mm"))
      ++ ".png" := by
  refine ⟨fun h => ?_, fun h => ?_, rfl⟩
  · unfold pretty_print_float
    rw [if_pos h]
    exact ⟨rfl, List.count_eq_zero.mpr (renderInt_no_dot _)⟩
  · unfold pretty_print_float
    rw [if_neg h]
    exact ⟨formatFixed2_dotCount v, formatFixed2_fracLen v⟩

/-- Witness for C8 on the integral value 3 and the fractional value 3.456. -/
theorem c8_output_filename_formatting_witness :
    (pretty_print_float (3 : ℚ) = renderInt (roundQ 3) ∧
      dotCount (pretty_print_float (3 : ℚ)) = 0) ∧
    (dotCount (pretty_print_float (3.456 : ℚ)) = 1 ∧
      fracLen (pretty_print_float (3.456 : ℚ)) = 2) :=
  ⟨(c8_output_filename_formatting 3 "" "" RepeatyGui.new).1
      (by rw [show roundQ (3 : ℚ) = 3 from by norm_num [roundQ]]; norm_num),
    (c8_output_filename_formatting 3.456 "" "" RepeatyGui.new).2.1
      (by rw [show roundQ (3.456 : ℚ) = 3 from by norm_num [roundQ], abs_lt]
          push_cast
          norm_num)⟩

end Repeaty
